import Mathlib

/-!
Verification of the G1 audio client and its chunked stream player.

This file shallowly embeds the relevant parts of the repository:

* `example/g1/audio/g1_audio_long_play_example.py` — the chunked stream
  player (`main`): chunk-size computation, the chunk transmission loop with
  early abort on a nonzero status, the deadline-based pacing computation,
  and the terminating `PlayStop` call.
* `unitree_sdk2py/g1/audio/g1_audio_client.py` — the `AudioClient` facade:
  `TtsMaker`, the ASR listener (`StartAsrListener` / `StopAsrListener` and
  the internal decode-and-dispatch handler), the raw-mic listener
  (`StartRawMicListener` / `StopRawMicListener` / `_mic_listener_loop`),
  and the local-address resolver `_get_local_ip_for_multicast`.

Python integers are embedded as `Nat`/`Int` (they are unbounded), byte
strings as `List Nat`, wall-clock times as exact rationals, and the
double-precision arithmetic used in the chunk-size computation as an exact
model of IEEE-754 binary64 round-to-nearest-even (definitions `rne`,
`binade`, `fl` below).  External effects (the RPC transport's status codes,
the sockets, the JSON decoder) are oracles passed in as parameters, and
each loop is embedded as a function from its input trace to the trace of
calls it makes.
-/

namespace G1Audio

/-! ## IEEE-754 binary64 model

The stream player computes `chunk_bytes = int(bytes_per_sec * (chunk_ms /
1000.0))` in Python floats.  We model a non-negative finite double exactly
as a fraction of naturals: the binade exponent `e` with `2^e ≤ a/b <
2^(e+1)`, and rounding to 53 significant bits with ties to even.
Exponents are searched in `[-100, 100]`, which covers every value arising
in this computation.  Everything is natural-number arithmetic so that
concrete instances evaluate in the kernel. -/

/-- Round the non-negative fraction `N / D` to the nearest natural number,
ties to even. -/
def rneN (N D : ℕ) : ℕ :=
  let m := N / D
  let r2 := 2 * (N % D)
  if r2 < D then m
  else if D < r2 then m + 1
  else if m % 2 = 0 then m else m + 1

/-- The binade exponent of the positive fraction `a / b`: the
`e ∈ [-100, 100]` with `2^e ≤ a/b < 2^(e+1)`, decided by cross
multiplication after scaling by `2^100`. -/
def binadeN (a b : ℕ) : ℤ :=
  (((List.range 201).map (fun i => (i : ℤ) - 100)).find?
    (fun e => decide (b * 2^((100 + e).toNat) ≤ a * 2^100 ∧
                      a * 2^100 < b * 2^((101 + e).toNat)))).getD 0

/-- Round the non-negative fraction `a / b` to the nearest IEEE-754
binary64 value (53-bit significand, round to nearest, ties to even),
returned as a fraction `(num, den)` of naturals. -/
def flFrac (a b : ℕ) : ℕ × ℕ :=
  if a = 0 then (0, 1)
  else
    let e := binadeN a b
    let s : ℤ := 52 - e
    if 0 ≤ s then
      (rneN (a * 2^s.toNat) b, 2^s.toNat)
    else
      (rneN a (b * 2^(-s).toNat) * 2^(-s).toNat, 1)

/-! ## Stream player: chunk-size computation

From `g1_audio_long_play_example.py`:
```
bytes_per_sample = 2
bytes_per_sec = sample_rate * bytes_per_sample
chunk_bytes = int(bytes_per_sec * (chunk_ms / 1000.0))
```
`chunk_ms / 1000.0` and the outer product are double-precision operations;
`int(·)` truncates toward zero. -/

/-- `bytes_per_sec = sample_rate * bytes_per_sample` with
`bytes_per_sample = 2`. -/
def bytesPerSec (sampleRate : ℕ) : ℕ := sampleRate * 2

/-- `chunk_bytes = int(bytes_per_sec * (chunk_ms / 1000.0))`: the
double-precision evaluation, truncated toward zero.  Step by step:
`chunkMs` is converted to a double, divided by the exact double `1000.0`
(one rounding), `bps` is converted to a double, the product is rounded,
and `int(·)` truncates (floors, as all values are non-negative). -/
def floatChunkBytes (bps chunkMs : ℕ) : ℕ :=
  let fc := flFrac chunkMs 1
  let fq := flFrac fc.1 (fc.2 * 1000)
  let fb := flFrac bps 1
  let fp := flFrac (fb.1 * fq.1) (fb.2 * fq.2)
  fp.1 / fp.2

/-- The exact-arithmetic chunk size claimed by the specification:
`chunkBytes = sampleRate * 2 * chunkDurationMs / 1000` (integer floor
division). -/
def specChunkBytes (sampleRate chunkMs : ℕ) : ℕ :=
  sampleRate * 2 * chunkMs / 1000

/-! ## Stream player: splitting and transmission loop

From `g1_audio_long_play_example.py`:
```
num_chunks = (len(pcm_bytes) + chunk_bytes - 1) // chunk_bytes
for idx in range(num_chunks):
    offset = idx * chunk_bytes
    buf = pcm_bytes[offset: offset + chunk_bytes]
    if not buf:
        break
    ret = audio_client.PlayStream("longplay", stream_id, list(buf))
    if ret != 0:
        print(f"PlayStream error at chunk {idx}: code={ret}")
        break
    ...pacing (modelled separately)...
audio_client.PlayStop("longplay")
```
The RPC transport is an oracle `status : ℕ → ℤ` giving the status code
returned by the `PlayStream` call at each chunk index. -/

/-- `buf = pcm_bytes[idx*chunk_bytes : idx*chunk_bytes + chunk_bytes]`. -/
def chunkAt (pcm : List ℕ) (cb idx : ℕ) : List ℕ :=
  (pcm.drop (idx * cb)).take cb

/-- `num_chunks = (len(pcm_bytes) + chunk_bytes - 1) // chunk_bytes`. -/
def numChunks (pcmLen cb : ℕ) : ℕ := (pcmLen + cb - 1) / cb

/-- One `PlayStream` call as recorded in the transmission trace: the
`app_name` and `stream_id` it carried, the chunk payload, and the status
code the transport returned for it. -/
structure CallRecord where
  app : String
  sid : String
  chunk : List ℕ
  ret : ℤ
  deriving Repr, DecidableEq

/-- The `for idx in range(num_chunks)` body, by remaining iteration count:
slice the chunk, stop on an empty slice, transmit, stop (recording the
code) on a nonzero status.  Returns the trace of `PlayStream` calls and
the first nonzero status (`0` if none). -/
def streamLoop (pcm : List ℕ) (cb : ℕ) (app sid : String) (status : ℕ → ℤ) :
    ℕ → ℕ → List CallRecord × ℤ
  | 0, _ => ([], 0)
  | fuel + 1, idx =>
    let buf := chunkAt pcm cb idx
    if buf = [] then ([], 0)
    else
      let ret := status idx
      if ret ≠ 0 then ([⟨app, sid, buf, ret⟩], ret)
      else
        let rest := streamLoop pcm cb app sid status fuel (idx + 1)
        (⟨app, sid, buf, ret⟩ :: rest.1, rest.2)

/-- Outcome of one stream-player run: the `PlayStream` call trace, the
`app_name`s of the `PlayStop` calls made, and the reported result (the
first nonzero chunk status, else `0`). -/
structure RunResult where
  calls : List CallRecord
  stopApps : List String
  errCode : ℤ
  deriving Repr, DecidableEq

/-- A whole stream-player run: the chunk loop over `range(num_chunks)`
followed by the unconditional single `PlayStop(app)`. -/
def runStream (pcm : List ℕ) (cb : ℕ) (app sid : String) (status : ℕ → ℤ) :
    RunResult :=
  let r := streamLoop pcm cb app sid status (numChunks pcm.length cb) 0
  ⟨r.1, [app], r.2⟩

/-! ## Stream player: pacing

From `g1_audio_long_play_example.py` (after a successful chunk send):
```
chunk_duration = len(buf) / bytes_per_sec
next_target = start_wall + (idx + 1) * chunk_duration
sleep_time = next_target - time.time()
if sleep_time > 0:
    time.sleep(sleep_time)
```
Wall-clock values are modelled as exact rationals. -/

/-- `chunk_duration = len(buf) / bytes_per_sec` — the duration of the
chunk actually sent, recomputed per chunk from its byte length. -/
def chunkDurationOf (bufLen bps : ℕ) : ℚ := (bufLen : ℚ) / (bps : ℚ)

/-- `next_target = start_wall + (idx + 1) * chunk_duration`. -/
def nextTarget (startWall : ℚ) (idx bufLen bps : ℕ) : ℚ :=
  startWall + ((idx : ℚ) + 1) * chunkDurationOf bufLen bps

/-- `sleep_time = next_target - time.time()`; `time.sleep` runs only when
it is positive.  `some d` means the player sleeps for `d`, `none` that it
proceeds immediately. -/
def sleepAfterChunk (startWall now : ℚ) (idx bufLen bps : ℕ) : Option ℚ :=
  let st := nextTarget startWall idx bufLen bps - now
  if 0 < st then some st else none

/-- The pacing deadline asserted by the specification: `startTime +
(i+1) * chunkDuration` with `chunkDuration` the *configured* chunk
duration `chunkMs / 1000`, independent of the chunk actually sent. -/
def specNextTarget (startWall : ℚ) (idx chunkMs : ℕ) : ℚ :=
  startWall + ((idx : ℚ) + 1) * ((chunkMs : ℚ) / 1000)

/-! ## AudioClient: TtsMaker

From `g1_audio_client.py`:
```
def __init__(self):
    ...
    self.tts_index = 0
def TtsMaker(self, text, speaker_id):
    self.tts_index += self.tts_index
    p = dict with keys index = self.tts_index, text, speaker_id
    code, data = self._Call(ROBOT_API_ID_AUDIO_TTS, json.dumps(p))
    return code
```
The transport `_Call` is an oracle `status : ℕ → ℤ` giving the status code
of the `n`-th call the client makes.  A run over a list of
`(text, speaker_id)` commands records, per call, the parameters attached
and the code returned. -/

/-- The parameters of one TTS call and the status code it returned. -/
structure TtsRecord where
  index : ℤ
  text : String
  speakerId : ℤ
  ret : ℤ
  deriving Repr, DecidableEq

/-- `self.tts_index += self.tts_index`. -/
def ttsStep (ttsIndex : ℤ) : ℤ := ttsIndex + ttsIndex

/-- A sequence of `TtsMaker` calls starting from internal index
`ttsIndex`, the `n`-th overall call drawing its status from the oracle. -/
def ttsRun (status : ℕ → ℤ) : List (String × ℤ) → ℤ → ℕ → List TtsRecord
  | [], _, _ => []
  | (t, sp) :: rest, ttsIndex, n =>
    let idx := ttsStep ttsIndex
    ⟨idx, t, sp, status n⟩ :: ttsRun status rest idx (n + 1)

/-! ## AudioClient: ASR decode-and-dispatch handler

From `g1_audio_client.py`, `StartAsrListener`:
```
def _internal_handler(sample: String_):
    try:
        payload = json.loads(sample.data)
    except Exception:
        payload = the fallback dict with single key raw = sample.data
    handler(payload)
```
`json.loads` is an oracle `decode : String → Option α` (`none` = raised);
the user handler may itself raise, modelled as `Except String Unit`.
Note the user handler is invoked *outside* the `try`. -/

/-- The payload handed to the user handler: either the decoded document,
or the fallback dict carrying the original message text under the key
`raw`. -/
inductive AsrPayload (α : Type) where
  | dict (d : α)
  | raw (s : String)
  deriving Repr, DecidableEq

/-- The payload `_internal_handler` builds from the raw message text. -/
def asrPayloadOf {α : Type} (decode : String → Option α) (data : String) :
    AsrPayload α :=
  match decode data with
  | some d => AsrPayload.dict d
  | none => AsrPayload.raw data

/-- `_internal_handler` itself: build the payload, then call the user
handler — with no surrounding `try`, so the handler's outcome is the
wrapper's outcome. -/
def asrInternalHandler {α : Type} (decode : String → Option α)
    (handler : AsrPayload α → Except String Unit) (data : String) :
    Except String Unit :=
  handler (asrPayloadOf decode data)

/-- The list of user-handler invocations one delivered message causes. -/
def asrInvocations {α : Type} (decode : String → Option α) (data : String) :
    List (AsrPayload α) :=
  [asrPayloadOf decode data]

/-! ## AudioClient: raw-mic receive loop

From `_mic_listener_loop` (after successful setup):
```
while not self.__mic_listener_stop_event.is_set():
    try:
        sock.settimeout(1.0)
        data, addr = sock.recvfrom(4096)
        if data:
            try:
                handler(data)
            except Exception as e:
                print(f"Error in user audio handler: {e}")
    except socket.timeout:
        continue
    except (socket.error, OSError) as e:
        if self.__mic_listener_stop_event.is_set():
            break
        else:
            print(f"Socket error in mic listener: {e}")
            break
```
A run is driven by the trace of socket events; `recvfrom(4096)` yields at
most 4096 bytes of each datagram. -/

/-- One iteration's socket outcome: a received datagram (its full byte
content; the loop sees at most the first 4096 bytes), a receive timeout,
a socket error, or the stop event observed set at the top of the loop. -/
inductive MicEvent where
  | datagram (d : List ℕ)
  | timeout
  | sockError
  | stopSet
  deriving Repr, DecidableEq

/-- The receive loop over an event trace: returns the arguments of the
user-handler invocations, in order, and the logged handler errors.
A `sockError` or an observed stop event ends the loop; a handler error is
logged and the loop continues. -/
def micLoop (handler : List ℕ → Except String Unit) :
    List MicEvent → List (List ℕ) × List String
  | [] => ([], [])
  | MicEvent.datagram d :: rest =>
    let data := d.take 4096
    if data = [] then micLoop handler rest
    else
      let r := micLoop handler rest
      match handler data with
      | Except.ok _ => (data :: r.1, r.2)
      | Except.error e => (data :: r.1, e :: r.2)
  | MicEvent.timeout :: rest => micLoop handler rest
  | MicEvent.sockError :: _ => ([], [])
  | MicEvent.stopSet :: _ => ([], [])

/-- The datagrams carried by an event trace. -/
def datagramsOf (evs : List MicEvent) : List (List ℕ) :=
  evs.filterMap (fun e =>
    match e with
    | MicEvent.datagram d => some d
    | _ => none)

/-- Whether an event trace consists solely of datagrams and timeouts (no
socket error and no stop request), i.e. the loop runs it to completion. -/
def uninterrupted (evs : List MicEvent) : Bool :=
  evs.all (fun e =>
    match e with
    | MicEvent.datagram _ => true
    | MicEvent.timeout => true
    | _ => false)

/-! ## AudioClient: lifecycle state machine

The mutable lifecycle fields of `AudioClient` and the transitions made by
`StartAsrListener` / `StopAsrListener` / `StartRawMicListener` /
`StopRawMicListener`, plus what `_mic_listener_loop` does to them when its
setup fails (it prints the error and returns — the `finally` block is
`pass`, so no field is reset). -/

/-- The state of the Python `threading.Thread` object still referenced by
`__mic_listener_thread`. -/
inductive ThreadSt where
  | running
  | dead
  deriving Repr, DecidableEq

/-- The lifecycle fields of `AudioClient`. -/
structure ClientState where
  /-- `__asr_subscriber` (`some ()` = a live `ChannelSubscriber`). -/
  asrSub : Option Unit
  /-- `__mic_listener_thread` (the referenced thread may have exited). -/
  micThread : Option ThreadSt
  /-- `__mic_listener_stop_event` (`some b`: event exists, `b` = set). -/
  micStop : Option Bool
  /-- `__mic_socket` (`some ()` = a stored socket object). -/
  micSock : Option Unit
  deriving Repr, DecidableEq

/-- A freshly constructed `AudioClient`. -/
def initState : ClientState :=
  ⟨none, none, none, none⟩

/-- `StartAsrListener`: returns unchanged if `__asr_subscriber` is not
`None`; otherwise creates and initialises the subscriber.  The `Bool`
reports whether a new subscription was created. -/
def startAsr (s : ClientState) : ClientState × Bool :=
  if s.asrSub.isSome then (s, false)
  else ({ s with asrSub := some () }, true)

/-- `StopAsrListener`: closes and clears the subscriber if present. -/
def stopAsr (s : ClientState) : ClientState :=
  if s.asrSub.isSome then { s with asrSub := none } else s

/-- `StartRawMicListener`: returns unchanged if `__mic_listener_thread` is
not `None`; otherwise creates the stop event and starts the worker
thread.  The `Bool` reports whether a new worker was spawned. -/
def startRawMic (s : ClientState) : ClientState × Bool :=
  if s.micThread.isSome then (s, false)
  else ({ s with micThread := some ThreadSt.running,
                 micStop := some false }, true)

/-- `StopRawMicListener`: returns if `__mic_listener_thread` is `None`;
otherwise sets the stop event, closes the socket, joins the thread, and
resets all three fields to `None`. -/
def stopRawMic (s : ClientState) : ClientState :=
  if s.micThread = none then s
  else { s with micThread := none, micStop := none, micSock := none }

/-- The effect on the client state of the worker exiting after a setup
failure (address resolution, socket creation, bind, or multicast join):
the error is printed and the function returns, leaving every lifecycle
field as it was — in particular `__mic_listener_thread` still references
the now-dead thread. -/
def workerSetupFail (s : ClientState) : ClientState :=
  { s with micThread := s.micThread.map (fun _ => ThreadSt.dead) }

/-- Output of one worker run of `_mic_listener_loop`: the handler
invocations and handler-error logs of the receive loop, and whether a
setup-failure message was logged. -/
structure MicWorkerOut where
  deliveries : List (List ℕ)
  handlerLogs : List String
  setupFailLogged : Bool
  deriving Repr, DecidableEq

/-- A whole worker run: `setup` is `none` when address resolution, socket
creation, bind, or the multicast join raised (the `RuntimeError` path) —
then the error is logged and the worker exits without retrying; otherwise
the receive loop runs over the event trace. -/
def micWorkerRun (setup : Option Unit)
    (handler : List ℕ → Except String Unit) (evs : List MicEvent) :
    MicWorkerOut :=
  match setup with
  | none => ⟨[], [], true⟩
  | some _ =>
    let r := micLoop handler evs
    ⟨r.1, r.2, false⟩

/-! ## AudioClient: local-address resolver

From `_get_local_ip_for_multicast`: four strategies in order, each inside
`try ... except Exception: pass`; strategies 1–2 scan a list of host
addresses for the first on the target subnet; strategies 3–4 connect a
throwaway datagram socket (to the robot gateway, then to a public host)
and accept the socket's local address only if it is on the target subnet.
The environment is an oracle per strategy: `Except Unit` models a raised
exception. -/

/-- `target_subnet = "192.168.123."`. -/
def targetSubnet : String := "192.168.123."

/-- `ip.startswith(target_subnet)`: the target subnet's character
sequence is a prefix of the address's character sequence. -/
def ipMatches (ip : String) : Bool := targetSubnet.data.isPrefixOf ip.data

/-- The outcome of the environment for one resolver run. -/
structure ResolverEnv where
  /-- Strategy 1: the addresses from `socket.getaddrinfo`, or a raise. -/
  s1 : Except Unit (List String)
  /-- Strategy 2: the addresses from `socket.gethostbyname_ex`, or a raise. -/
  s2 : Except Unit (List String)
  /-- Strategy 3: the local address after connecting to `192.168.123.1`,
  or a raise. -/
  s3 : Except Unit String
  /-- Strategy 4: the local address after connecting to `8.8.8.8`, or a
  raise. -/
  s4 : Except Unit String

/-- A list-scanning strategy (1 or 2): on a raise nothing is returned;
otherwise the first address on the target subnet, if any. -/
def tryScan : Except Unit (List String) → Option String
  | Except.error _ => none
  | Except.ok ips => ips.find? ipMatches

/-- A connect-probe strategy (3 or 4): on a raise nothing is returned;
otherwise the probed local address if it is on the target subnet. -/
def tryProbe : Except Unit String → Option String
  | Except.error _ => none
  | Except.ok ip => if ipMatches ip then some ip else none

/-- `_get_local_ip_for_multicast`, instrumented with the list of
strategies attempted (in order): each strategy is tried only if every
earlier one fell through, and the first subnet-matching address is
returned. -/
def resolveLocalIp (env : ResolverEnv) : Option String × List ℕ :=
  match tryScan env.s1 with
  | some ip => (some ip, [1])
  | none =>
    match tryScan env.s2 with
    | some ip => (some ip, [1, 2])
    | none =>
      match tryProbe env.s3 with
      | some ip => (some ip, [1, 2, 3])
      | none =>
        match tryProbe env.s4 with
        | some ip => (some ip, [1, 2, 3, 4])
        | none => (none, [1, 2, 3, 4])

/-! ## Arithmetic facts about the chunk split -/

lemma le_numChunks_mul (n cb : ℕ) (hcb : 0 < cb) : n ≤ numChunks n cb * cb := by
  have hdm := Nat.div_add_mod (n + cb - 1) cb
  have hlt := Nat.mod_lt (n + cb - 1) hcb
  have hc : cb * ((n + cb - 1) / cb) = ((n + cb - 1) / cb) * cb := Nat.mul_comm _ _
  unfold numChunks
  omega

lemma numChunks_mul_lt (n cb : ℕ) (hcb : 0 < cb) : numChunks n cb * cb < n + cb := by
  have hdm := Nat.div_add_mod (n + cb - 1) cb
  have hlt := Nat.mod_lt (n + cb - 1) hcb
  have hc : cb * ((n + cb - 1) / cb) = ((n + cb - 1) / cb) * cb := Nat.mul_comm _ _
  unfold numChunks
  omega

lemma mul_lt_of_lt_numChunks (n cb i : ℕ) (hcb : 0 < cb) (hi : i < numChunks n cb) :
    i * cb < n := by
  have h1 : i * cb + cb ≤ numChunks n cb * cb := by
    have := Nat.mul_le_mul_right cb (Nat.succ_le_of_lt hi)
    simpa [Nat.succ_mul] using this
  have h2 := numChunks_mul_lt n cb hcb
  omega

lemma succ_mul_le_of_succ_lt (n cb i : ℕ) (hcb : 0 < cb) (hi : i + 1 < numChunks n cb) :
    i * cb + cb ≤ n := by
  have h1 : (i + 1) * cb < n := mul_lt_of_lt_numChunks n cb (i + 1) hcb hi
  have : (i + 1) * cb = i * cb + cb := Nat.succ_mul i cb
  omega

lemma chunkAt_length (pcm : List ℕ) (cb i : ℕ) :
    (chunkAt pcm cb i).length = min cb (pcm.length - i * cb) := by
  simp [chunkAt]

lemma chunkAt_ne_nil (pcm : List ℕ) (cb i : ℕ) (hcb : 0 < cb)
    (hi : i < numChunks pcm.length cb) : chunkAt pcm cb i ≠ [] := by
  have h := mul_lt_of_lt_numChunks pcm.length cb i hcb hi
  have hlen : (chunkAt pcm cb i).length ≠ 0 := by
    rw [chunkAt_length]
    omega
  exact fun hnil => hlen (by simp [hnil])

lemma chunkAt_succ (pcm : List ℕ) (cb i : ℕ) :
    chunkAt pcm cb (i + 1) = chunkAt (pcm.drop cb) cb i := by
  unfold chunkAt
  rw [List.drop_drop, Nat.succ_mul, Nat.add_comm]

lemma numChunks_zero_iff (n cb : ℕ) (hcb : 0 < cb) : numChunks n cb = 0 ↔ n = 0 := by
  unfold numChunks
  constructor
  · intro h
    have hdm := Nat.div_add_mod (n + cb - 1) cb
    have hlt := Nat.mod_lt (n + cb - 1) hcb
    rw [h, Nat.mul_zero, Nat.zero_add] at hdm
    omega
  · intro h
    subst h
    exact Nat.div_eq_of_lt (by omega)

lemma numChunks_drop (n cb : ℕ) (hcb : 0 < cb) (hn : 0 < n) :
    numChunks (n - cb) cb + 1 = numChunks n cb := by
  unfold numChunks
  rcases Nat.lt_or_ge n cb with h | h
  · have h0 : n - cb = 0 := by omega
    rw [h0]
    have l1 : (0 + cb - 1) / cb = 0 := Nat.div_eq_of_lt (by omega)
    have r1 : (n + cb - 1) / cb = 1 := Nat.div_eq_of_lt_le (by omega) (by omega)
    omega
  · have h1 : n - cb + cb - 1 = n - 1 := by omega
    have h2 : n + cb - 1 = (n - 1) + cb := by omega
    rw [h1, h2, Nat.add_div_right _ hcb]

lemma flatten_chunks (cb : ℕ) (hcb : 0 < cb) :
    ∀ (m : ℕ) (l : List ℕ), numChunks l.length cb = m →
      ((List.range m).map (chunkAt l cb)).flatten = l := by
  intro m
  induction m with
  | zero =>
    intro l hm
    have h0 : l.length = 0 := (numChunks_zero_iff l.length cb hcb).mp hm
    have : l = [] := List.eq_nil_of_length_eq_zero h0
    simp [this]
  | succ m ih =>
    intro l hm
    have hlen : 0 < l.length := by
      by_contra h
      have h0 : l.length = 0 := by omega
      rw [h0] at hm
      rw [(numChunks_zero_iff 0 cb hcb).mpr rfl] at hm
      exact absurd hm (by omega)
    have hdrop : numChunks (l.drop cb).length cb = m := by
      have := numChunks_drop l.length cb hcb hlen
      rw [List.length_drop]
      omega
    have h0 : chunkAt l cb 0 = l.take cb := by simp [chunkAt]
    calc ((List.range (m + 1)).map (chunkAt l cb)).flatten
        = (List.map (chunkAt l cb) (0 :: (List.range m).map Nat.succ)).flatten := by
          rw [List.range_succ_eq_map]
      _ = chunkAt l cb 0 ++ ((List.range m).map (fun i => chunkAt l cb (i + 1))).flatten := by
          simp only [List.map_cons, List.map_map, List.flatten_cons]
          rfl
      _ = l.take cb ++ ((List.range m).map (chunkAt (l.drop cb) cb)).flatten := by
          rw [h0]
          congr 1
          congr 1
          apply List.map_congr_left
          intro i _
          exact chunkAt_succ l cb i
      _ = l.take cb ++ l.drop cb := by rw [ih _ hdrop]
      _ = l := List.take_append_drop cb l

/-! ## Trace of the transmission loop -/

lemma streamLoop_ok (pcm : List ℕ) (cb : ℕ) (app sid : String) (status : ℕ → ℤ)
    (hst : ∀ i, status i = 0) :
    ∀ fuel idx, (∀ j, j < fuel → chunkAt pcm cb (idx + j) ≠ []) →
      streamLoop pcm cb app sid status fuel idx =
        ((List.range' idx fuel).map (fun i => ⟨app, sid, chunkAt pcm cb i, status i⟩), 0) := by
  intro fuel
  induction fuel with
  | zero => intro idx _; simp [streamLoop]
  | succ fuel ih =>
    intro idx h
    have hne : chunkAt pcm cb idx ≠ [] := by
      have := h 0 (Nat.succ_pos fuel)
      simpa using this
    have hz : status idx = 0 := hst idx
    have hrec := ih (idx + 1) (fun j hj => by
      have := h (j + 1) (Nat.succ_lt_succ hj)
      have heq : idx + 1 + j = idx + (j + 1) := by omega
      rw [heq]
      exact this)
    simp only [streamLoop, hne, if_neg, hz]
    rw [List.range'_succ]
    simp [hne, hrec, hz]

lemma streamLoop_abort (pcm : List ℕ) (cb : ℕ) (app sid : String) (status : ℕ → ℤ) :
    ∀ k fuel idx, k < fuel →
      (∀ j, j ≤ k → chunkAt pcm cb (idx + j) ≠ []) →
      (∀ j, j < k → status (idx + j) = 0) →
      status (idx + k) ≠ 0 →
      streamLoop pcm cb app sid status fuel idx =
        ((List.range' idx (k + 1)).map (fun i => ⟨app, sid, chunkAt pcm cb i, status i⟩),
          status (idx + k)) := by
  intro k
  induction k with
  | zero =>
    intro fuel idx hk hne _ herr
    obtain ⟨fuel', rfl⟩ : ∃ f, fuel = f + 1 := ⟨fuel - 1, by omega⟩
    have hne0 : chunkAt pcm cb idx ≠ [] := by simpa using hne 0 (Nat.le_refl 0)
    have herr0 : status idx ≠ 0 := by simpa using herr
    simp [streamLoop, hne0, herr0, List.range'_succ]
  | succ k ih =>
    intro fuel idx hk hne hok herr
    obtain ⟨fuel', rfl⟩ : ∃ f, fuel = f + 1 := ⟨fuel - 1, by omega⟩
    have hne0 : chunkAt pcm cb idx ≠ [] := by simpa using hne 0 (Nat.zero_le _)
    have hok0 : status idx = 0 := by simpa using hok 0 (Nat.succ_pos k)
    have hrec := ih fuel' (idx + 1) (by omega)
      (fun j hj => by
        have := hne (j + 1) (Nat.succ_le_succ hj)
        have heq : idx + 1 + j = idx + (j + 1) := by omega
        rw [heq]
        exact this)
      (fun j hj => by
        have := hok (j + 1) (Nat.succ_lt_succ hj)
        have heq : idx + 1 + j = idx + (j + 1) := by omega
        rw [heq]
        exact this)
      (by
        have heq : idx + 1 + k = idx + (k + 1) := by omega
        rwa [heq])
    have heq : idx + 1 + k = idx + (k + 1) := by omega
    rw [heq] at hrec
    simp only [streamLoop, hne0, hok0]
    rw [List.range'_succ]
    simp [hne0, hrec, hok0]

/-- A fully successful run: the call trace is one call per chunk index, in
order, the single stop call, and a zero result. -/
lemma runStream_ok (pcm : List ℕ) (cb : ℕ) (app sid : String) (status : ℕ → ℤ)
    (hcb : 0 < cb) (hst : ∀ i, status i = 0) :
    runStream pcm cb app sid status =
      ⟨(List.range (numChunks pcm.length cb)).map
          (fun i => ⟨app, sid, chunkAt pcm cb i, status i⟩), [app], 0⟩ := by
  have h := streamLoop_ok pcm cb app sid status hst (numChunks pcm.length cb) 0
    (fun j hj => by
      rw [Nat.zero_add]
      exact chunkAt_ne_nil pcm cb j hcb hj)
  simp only [Nat.zero_add] at h
  unfold runStream
  rw [h, ← List.range_eq_range']

/-! ## Claims -/

/-- C1 counterexample: the claim asserts the stream player computes
`chunkBytes = R * 2 * C / 1000`.  At `R = 16000`, `C = 1001` the exact
value is the integer `32032`, but the code's double-precision evaluation
`int(bytes_per_sec * (chunk_ms / 1000.0))` yields `32031` (since
`1001 / 1000` rounds below `1.001` in binary64), so the computed chunk
size differs from the claimed formula. -/
theorem chunk_bytes_formula_cex :
    floatChunkBytes (bytesPerSec 16000) 1001 = 32031 ∧
    specChunkBytes 16000 1001 = 32032 ∧
    floatChunkBytes (bytesPerSec 16000) 1001 ≠ specChunkBytes 16000 1001 := by
  decide

/-- C1 (amended): the stream player computes `chunkBytes` as the
double-precision evaluation `int(sampleRate * 2 * (C / 1000.0))` (which
can differ from exact `sampleRate * 2 * C / 1000`); for that `chunkBytes`,
when positive and when every chunk's control call succeeds, the buffer is
split into exactly `⌈len(buffer) / chunkBytes⌉` consecutive chunks
transmitted in split order under the one stream identifier and
application name of the run; every chunk except possibly the last has
exactly `chunkBytes` bytes, the last has between `1` and `chunkBytes`
bytes, and the concatenation of all transmitted chunks equals the
original buffer.  (`numChunks = (len + cb - 1) / cb` together with the
two inequalities states `numChunks = ⌈len / cb⌉`.) -/
theorem stream_split_amended (R C : ℕ) (pcm : List ℕ) (app sid : String)
    (status : ℕ → ℤ) (cb : ℕ)
    (hcb : cb = floatChunkBytes (bytesPerSec R) C) (hpos : 0 < cb)
    (hst : ∀ i, status i = 0) :
    (runStream pcm cb app sid status).calls.length = numChunks pcm.length cb ∧
    pcm.length ≤ numChunks pcm.length cb * cb ∧
    numChunks pcm.length cb * cb < pcm.length + cb ∧
    (∀ r ∈ (runStream pcm cb app sid status).calls, r.app = app ∧ r.sid = sid) ∧
    (runStream pcm cb app sid status).calls.map CallRecord.chunk =
      (List.range (numChunks pcm.length cb)).map (chunkAt pcm cb) ∧
    (∀ i, i + 1 < numChunks pcm.length cb → (chunkAt pcm cb i).length = cb) ∧
    (0 < numChunks pcm.length cb →
      1 ≤ (chunkAt pcm cb (numChunks pcm.length cb - 1)).length ∧
      (chunkAt pcm cb (numChunks pcm.length cb - 1)).length ≤ cb) ∧
    ((runStream pcm cb app sid status).calls.map CallRecord.chunk).flatten = pcm := by
  have hr := runStream_ok pcm cb app sid status hpos hst
  have hmap : (runStream pcm cb app sid status).calls.map CallRecord.chunk =
      (List.range (numChunks pcm.length cb)).map (chunkAt pcm cb) := by
    rw [hr]
    simp only [List.map_map]
    rfl
  refine ⟨?_, le_numChunks_mul _ _ hpos, numChunks_mul_lt _ _ hpos, ?_, hmap, ?_, ?_, ?_⟩
  · rw [hr]
    simp
  · rw [hr]
    intro r hrm
    simp only [List.mem_map, List.mem_range] at hrm
    obtain ⟨i, _, rfl⟩ := hrm
    exact ⟨rfl, rfl⟩
  · intro i hi
    rw [chunkAt_length]
    have := succ_mul_le_of_succ_lt pcm.length cb i hpos hi
    omega
  · intro hm
    have hlt := mul_lt_of_lt_numChunks pcm.length cb (numChunks pcm.length cb - 1) hpos
      (by omega)
    constructor <;> (rw [chunkAt_length]; omega)
  · rw [hmap]
    exact flatten_chunks cb hpos _ pcm rfl

/-- C1 witness: a concrete successful run (`R = 16000`, `C = 1000`,
3-byte buffer, all statuses zero) has exactly one chunk. -/
theorem stream_split_amended_witness :
    0 < floatChunkBytes (bytesPerSec 16000) 1000 ∧
    (runStream [1, 2, 3] (floatChunkBytes (bytesPerSec 16000) 1000)
        "longplay" "42" (fun _ => 0)).calls.length =
      numChunks 3 (floatChunkBytes (bytesPerSec 16000) 1000) :=
  ⟨by decide,
   (stream_split_amended 16000 1000 [1, 2, 3] "longplay" "42" (fun _ => 0)
      (floatChunkBytes (bytesPerSec 16000) 1000) rfl (by decide)
      (fun _ => rfl)).1⟩

/-- C2 counterexample: the claim asserts the player sleeps until
`startTime + (i+1) * chunkDuration` with `chunkDuration` the *configured*
chunk duration.  The code instead computes the deadline from the byte
length of the chunk actually sent (`len(buf) / bytes_per_sec`).  With
sample rate 500, configured chunk duration 2 ms (`chunk_bytes = 2`) and a
3-byte buffer, the final chunk (index 1) has 1 byte, and the code's
deadline `2 * (1/1000)` differs from the claimed `2 * (2/1000)`. -/
theorem pacing_deadline_cex :
    floatChunkBytes (bytesPerSec 500) 2 = 2 ∧
    numChunks (List.replicate 3 0).length 2 = 2 ∧
    (chunkAt (List.replicate 3 0) 2 1).length = 1 ∧
    nextTarget 0 1 (chunkAt (List.replicate 3 0) 2 1).length (bytesPerSec 500) ≠
      specNextTarget 0 1 2 := by
  have hlen : (chunkAt (List.replicate 3 0) 2 1).length = 1 := by decide
  refine ⟨by decide, by decide, hlen, ?_⟩
  rw [hlen]
  norm_num [nextTarget, specNextTarget, chunkDurationOf, bytesPerSec]

/-- C2 (amended): after sending chunk `i` the player computes the deadline
`startTime + (i+1) * (len(chunk_i) / bytesPerSec)` — the duration of the
chunk actually sent, not the configured chunk duration — and sleeps
exactly the remaining time to that deadline when it is positive; when the
remaining time is zero or negative it does not sleep. -/
theorem pacing_deadline_amended (startWall now : ℚ) (idx bufLen bps : ℕ) :
    nextTarget startWall idx bufLen bps =
      startWall + ((idx : ℚ) + 1) * ((bufLen : ℚ) / (bps : ℚ)) ∧
    (now < nextTarget startWall idx bufLen bps →
      sleepAfterChunk startWall now idx bufLen bps =
        some (nextTarget startWall idx bufLen bps - now)) ∧
    (nextTarget startWall idx bufLen bps ≤ now →
      sleepAfterChunk startWall now idx bufLen bps = none) := by
  refine ⟨rfl, ?_, ?_⟩
  · intro h
    have hpos : 0 < nextTarget startWall idx bufLen bps - now := by linarith
    simp [sleepAfterChunk, hpos]
  · intro h
    have hneg : ¬ 0 < nextTarget startWall idx bufLen bps - now := by linarith
    simp [sleepAfterChunk, hneg]

/-- C2 witness: with the deadline one second away the player sleeps for
exactly that remaining second. -/
theorem pacing_deadline_amended_witness :
    (0 : ℚ) < nextTarget 0 0 1000 1000 ∧
    sleepAfterChunk 0 0 0 1000 1000 = some (nextTarget 0 0 1000 1000 - 0) :=
  ⟨by norm_num [nextTarget, chunkDurationOf],
   (pacing_deadline_amended 0 0 0 1000 1000).2.1
     (by norm_num [nextTarget, chunkDurationOf])⟩

/-- C3: if the control call for chunk `k` (with `k < numChunks`) returns
the first nonzero status, the loop transmits chunks `0..k` and stops: the
calls accepted with status zero are exactly the first `k` chunks in split
order, the remaining chunks are never attempted, the terminating stop
call is sent exactly once with the same application name, and the
reported result is that first nonzero status. -/
theorem stream_abort_propagates (pcm : List ℕ) (cb k : ℕ) (app sid : String)
    (status : ℕ → ℤ) (hcb : 0 < cb) (hk : k < numChunks pcm.length cb)
    (hok : ∀ j, j < k → status j = 0) (herr : status k ≠ 0) :
    (runStream pcm cb app sid status).calls.map CallRecord.chunk =
      (List.range (k + 1)).map (chunkAt pcm cb) ∧
    ((runStream pcm cb app sid status).calls.filter
        (fun r => decide (r.ret = 0))).map CallRecord.chunk =
      (List.range k).map (chunkAt pcm cb) ∧
    (runStream pcm cb app sid status).stopApps = [app] ∧
    (runStream pcm cb app sid status).errCode = status k := by
  have habort := streamLoop_abort pcm cb app sid status k (numChunks pcm.length cb) 0 hk
    (fun j hj => by
      rw [Nat.zero_add]
      exact chunkAt_ne_nil pcm cb j hcb (lt_of_le_of_lt hj hk))
    (fun j hj => by
      rw [Nat.zero_add]
      exact hok j hj)
    (by
      rw [Nat.zero_add]
      exact herr)
  simp only [Nat.zero_add] at habort
  have hrun : runStream pcm cb app sid status =
      ⟨(List.range (k + 1)).map (fun i => ⟨app, sid, chunkAt pcm cb i, status i⟩),
        [app], status k⟩ := by
    unfold runStream
    rw [habort, ← List.range_eq_range']
  refine ⟨?_, ?_, ?_, ?_⟩
  · rw [hrun]
    simp only [List.map_map]
    rfl
  · rw [hrun]
    have hsplit : List.range (k + 1) = List.range k ++ [k] := List.range_succ k
    rw [hsplit, List.map_append, List.filter_append]
    have h1 : (List.map (fun i => (⟨app, sid, chunkAt pcm cb i, status i⟩ : CallRecord))
        (List.range k)).filter (fun r => decide (r.ret = 0)) =
        List.map (fun i => (⟨app, sid, chunkAt pcm cb i, status i⟩ : CallRecord))
          (List.range k) := by
      apply List.filter_eq_self.mpr
      intro r hrm
      simp only [List.mem_map, List.mem_range] at hrm
      obtain ⟨i, hi, rfl⟩ := hrm
      simp [hok i hi]
    have h2 : (List.map (fun i => (⟨app, sid, chunkAt pcm cb i, status i⟩ : CallRecord))
        [k]).filter (fun r => decide (r.ret = 0)) = [] := by
      simp [herr]
    rw [h1, h2, List.append_nil]
    simp only [List.map_map]
    rfl
  · rw [hrun]
  · rw [hrun]

/-- C3 witness: a four-byte buffer in two-byte chunks whose second chunk
call fails with status 5: the stop call still goes out once and the
result is 5. -/
theorem stream_abort_propagates_witness :
    1 < numChunks ([1, 2, 3, 4] : List ℕ).length 2 ∧
    (runStream [1, 2, 3, 4] 2 "longplay" "s"
        (fun i => if i = 0 then 0 else 5)).stopApps = ["longplay"] ∧
    (runStream [1, 2, 3, 4] 2 "longplay" "s"
        (fun i => if i = 0 then 0 else 5)).errCode = 5 := by
  have h := stream_abort_propagates [1, 2, 3, 4] 2 1 "longplay" "s"
    (fun i => if i = 0 then 0 else 5) (by decide) (by decide)
    (fun j hj => by
      have hj0 : j = 0 := by omega
      subst hj0
      rfl)
    (by decide)
  exact ⟨by decide, h.2.2.1, h.2.2.2⟩

/-- C4 counterexample: the claim asserts that an exception raised by a
user handler is caught and logged at the delivery site for the ASR
subscription as well.  In `_internal_handler` only the decode is guarded
by `try`; the user-handler call is outside it, so a handler error is the
wrapper's own outcome and escapes the delivery site uncaught. -/
theorem handler_exception_cex :
    asrInternalHandler (fun _ => (none : Option Unit))
      (fun _ => Except.error "boom") "hello" = Except.error "boom" := rfl

/-- C4 (amended): for the raw-mic listener a handler exception is caught
and logged at the delivery site and reception continues — the delivered
sequence does not depend on the handlers' outcomes at all; for the ASR
subscription the delivery wrapper does not catch handler errors: whatever
error the user handler raises is raised by `_internal_handler` itself. -/
theorem handler_exception_amended :
    (∀ (h₁ h₂ : List ℕ → Except String Unit) (evs : List MicEvent),
      (micLoop h₁ evs).1 = (micLoop h₂ evs).1) ∧
    (∀ {α : Type} (decode : String → Option α)
        (handler : AsrPayload α → Except String Unit) (data e : String),
      handler (asrPayloadOf decode data) = Except.error e →
      asrInternalHandler decode handler data = Except.error e) := by
  constructor
  · intro h₁ h₂ evs
    induction evs with
    | nil => rfl
    | cons ev rest ih =>
      cases ev with
      | datagram d =>
        simp only [micLoop]
        by_cases hd : d.take 4096 = []
        · simp [hd, ih]
        · cases h₁ (d.take 4096) <;> cases h₂ (d.take 4096) <;> simp [hd, ih]
      | timeout =>
        simp only [micLoop]
        exact ih
      | sockError => rfl
      | stopSet => rfl
  · intro α decode handler data e h
    unfold asrInternalHandler
    exact h

/-- C4 witness: a throwing handler changes nothing about mic deliveries,
and the ASR wrapper surfaces the handler's error. -/
theorem handler_exception_amended_witness :
    (micLoop (fun _ => Except.error "x") [MicEvent.datagram [1]]).1 =
      (micLoop (fun _ => Except.ok ()) [MicEvent.datagram [1]]).1 ∧
    asrInternalHandler (fun _ => (none : Option Unit))
      (fun _ => Except.error "y") "m" = Except.error "y" :=
  ⟨handler_exception_amended.1 (fun _ => Except.error "x")
      (fun _ => Except.ok ()) [MicEvent.datagram [1]],
   handler_exception_amended.2 (fun _ => (none : Option Unit))
      (fun _ => Except.error "y") "m" "y" rfl⟩

/-- C5 counterexample: the claim asserts that after a worker setup
failure a subsequent `StartRawMicListener` starts a new session.  The
worker never clears `__mic_listener_thread`, so after the failed worker
exits the subsequent `Start` hits the already-running guard and is a
no-op: no new worker is spawned. -/
theorem mic_setup_fail_restart_cex :
    (startRawMic (workerSetupFail (startRawMic initState).1)).2 = false ∧
    (startRawMic (workerSetupFail (startRawMic initState).1)).1 =
      workerSetupFail (startRawMic initState).1 ∧
    (workerSetupFail (startRawMic initState).1).micThread = some ThreadSt.dead := by
  decide

/-- C5 (amended): a worker setup failure is logged and the worker exits
without retrying and without delivering anything; but the facade still
references the dead thread, so a subsequent `StartRawMicListener` is a
no-op — only after `StopRawMicListener` resets the state does `Start`
spawn a new session. -/
theorem mic_setup_fail_amended :
    (∀ (handler : List ℕ → Except String Unit) (evs : List MicEvent),
      micWorkerRun none handler evs = ⟨[], [], true⟩) ∧
    (∀ s : ClientState, s.micThread = some ThreadSt.dead → startRawMic s = (s, false)) ∧
    (∀ s : ClientState, (startRawMic (stopRawMic s)).2 = true) := by
  refine ⟨fun _ _ => rfl, ?_, ?_⟩
  · intro s hs
    simp [startRawMic, hs]
  · intro s
    by_cases h : s.micThread = none
    · simp [stopRawMic, startRawMic, h]
    · simp [stopRawMic, startRawMic, h]

/-- C5 witness: a concrete failed-setup run delivers nothing and logs,
and a state holding a dead thread rejects a new start. -/
theorem mic_setup_fail_amended_witness :
    micWorkerRun none (fun _ => Except.ok ()) [MicEvent.datagram [1]] = ⟨[], [], true⟩ ∧
    (⟨none, some ThreadSt.dead, some false, none⟩ : ClientState).micThread =
      some ThreadSt.dead ∧
    startRawMic ⟨none, some ThreadSt.dead, some false, none⟩ =
      (⟨none, some ThreadSt.dead, some false, none⟩, false) :=
  ⟨mic_setup_fail_amended.1 (fun _ => Except.ok ()) [MicEvent.datagram [1]], rfl,
   mic_setup_fail_amended.2.1 ⟨none, some ThreadSt.dead, some false, none⟩ rfl⟩

/-- C6: Start and Stop of both lifecycle components are idempotent: a
second Start without an intervening Stop is a no-op that leaves the one
active session in place, and Stop with no active session is a no-op. -/
theorem start_stop_idempotent :
    (∀ s : ClientState, startAsr (startAsr s).1 = ((startAsr s).1, false) ∧
      (startAsr s).1.asrSub.isSome = true) ∧
    (∀ s : ClientState, startRawMic (startRawMic s).1 = ((startRawMic s).1, false) ∧
      (startRawMic s).1.micThread.isSome = true) ∧
    (∀ s : ClientState, s.asrSub = none → stopAsr s = s) ∧
    (∀ s : ClientState, s.micThread = none → stopRawMic s = s) := by
  refine ⟨?_, ?_, ?_, ?_⟩
  · intro s
    by_cases h : s.asrSub.isSome <;> simp [startAsr, h]
  · intro s
    by_cases h : s.micThread.isSome <;> simp [startRawMic, h]
  · intro s h
    simp [stopAsr, h]
  · intro s h
    simp [stopRawMic, h]

/-- C6 witness: both idempotence directions at the freshly constructed
client. -/
theorem start_stop_idempotent_witness :
    startAsr (startAsr initState).1 = ((startAsr initState).1, false) ∧
    startRawMic (startRawMic initState).1 = ((startRawMic initState).1, false) ∧
    initState.asrSub = none ∧ stopAsr initState = initState ∧
    initState.micThread = none ∧ stopRawMic initState = initState :=
  ⟨(start_stop_idempotent.1 initState).1,
   (start_stop_idempotent.2.1 initState).1, rfl,
   start_stop_idempotent.2.2.1 initState rfl, rfl,
   start_stop_idempotent.2.2.2 initState rfl⟩

/-- C7: every delivered ASR message causes exactly one user-handler
invocation: with the decoded document when the text parses, and otherwise
with the fallback payload carrying the original message text under the
escape key — never skipped because of a decode error. -/
theorem asr_decode_fallback {α : Type} (decode : String → Option α) (data : String) :
    (asrInvocations decode data).length = 1 ∧
    (∀ d, decode data = some d →
      asrInvocations decode data = [AsrPayload.dict d]) ∧
    (decode data = none → asrInvocations decode data = [AsrPayload.raw data]) := by
  refine ⟨rfl, ?_, ?_⟩
  · intro d h
    simp [asrInvocations, asrPayloadOf, h]
  · intro h
    simp [asrInvocations, asrPayloadOf, h]

/-- C7 witness: a message whose decode fails is delivered once, wrapped
as the raw-text fallback. -/
theorem asr_decode_fallback_witness :
    (asrInvocations (fun _ => (none : Option Unit)) "oops").length = 1 ∧
    asrInvocations (fun _ => (none : Option Unit)) "oops" =
      [AsrPayload.raw "oops"] :=
  ⟨(asr_decode_fallback (fun _ => (none : Option Unit)) "oops").1,
   (asr_decode_fallback (fun _ => (none : Option Unit)) "oops").2.2 rfl⟩

/-- C8: the resolver tries its four strategies in order and returns the
first discovered address on the `192.168.123.` subnet, whichever strategy
discovers it: a strategy-1 match means strategies 2–4 are never attempted;
when every earlier strategy falls through, a match discovered by strategy
2, 3, or 4 is returned (with exactly the strategies up to it attempted);
a raise inside a strategy behaves exactly like that strategy finding
nothing (swallowed, next strategy attempted); when every strategy fails
the result is `none` after attempting all four. -/
theorem resolver_strategy_order :
    (∀ (env : ResolverEnv) (ips : List String) (ip : String),
      env.s1 = Except.ok ips → ips.find? ipMatches = some ip →
      resolveLocalIp env = (some ip, [1])) ∧
    (∀ (env : ResolverEnv) (ips : List String) (ip : String),
      tryScan env.s1 = none →
      env.s2 = Except.ok ips → ips.find? ipMatches = some ip →
      resolveLocalIp env = (some ip, [1, 2])) ∧
    (∀ (env : ResolverEnv) (ip : String),
      tryScan env.s1 = none → tryScan env.s2 = none →
      env.s3 = Except.ok ip → ipMatches ip = true →
      resolveLocalIp env = (some ip, [1, 2, 3])) ∧
    (∀ (env : ResolverEnv) (ip : String),
      tryScan env.s1 = none → tryScan env.s2 = none → tryProbe env.s3 = none →
      env.s4 = Except.ok ip → ipMatches ip = true →
      resolveLocalIp env = (some ip, [1, 2, 3, 4])) ∧
    (∀ b c d, resolveLocalIp ⟨Except.error (), b, c, d⟩ =
      resolveLocalIp ⟨Except.ok [], b, c, d⟩) ∧
    (∀ a c d, resolveLocalIp ⟨a, Except.error (), c, d⟩ =
      resolveLocalIp ⟨a, Except.ok [], c, d⟩) ∧
    (∀ a b d, resolveLocalIp ⟨a, b, Except.error (), d⟩ =
      resolveLocalIp ⟨a, b, Except.ok "", d⟩) ∧
    (∀ a b c, resolveLocalIp ⟨a, b, c, Except.error ()⟩ =
      resolveLocalIp ⟨a, b, c, Except.ok ""⟩) ∧
    (∀ env : ResolverEnv, tryScan env.s1 = none → tryScan env.s2 = none →
      tryProbe env.s3 = none → tryProbe env.s4 = none →
      resolveLocalIp env = (none, [1, 2, 3, 4])) := by
  refine ⟨?_, ?_, ?_, ?_, ?_, ?_, ?_, ?_, ?_⟩
  · intro env ips ip h1 h2
    simp [resolveLocalIp, tryScan, h1, h2]
  · intro env ips ip h1 h2 h3
    unfold resolveLocalIp
    rw [h1, h2]
    simp [tryScan, h3]
  · intro env ip h1 h2 h3 h4
    unfold resolveLocalIp
    rw [h1, h2, h3]
    simp [tryProbe, h4]
  · intro env ip h1 h2 h3 h4 h5
    unfold resolveLocalIp
    rw [h1, h2, h3, h4]
    simp [tryProbe, h5]
  · intro b c d
    simp [resolveLocalIp, tryScan]
  · intro a c d
    simp [resolveLocalIp, tryScan]
  · intro a b d
    have hip : ipMatches "" = false := by decide
    simp [resolveLocalIp, tryProbe, hip]
  · intro a b c
    have hip : ipMatches "" = false := by decide
    simp [resolveLocalIp, tryProbe, hip]
  · intro env h1 h2 h3 h4
    simp [resolveLocalIp, h1, h2, h3, h4]

/-- C8 witness: a strategy-1 match is returned having attempted only
strategy 1; with strategies 1–2 finding nothing, a strategy-2 list match
and a strategy-3 probe match are each returned with exactly the
strategies up to them attempted; a strategy-4 probe match is returned
after all four; an all-failing environment yields `none`. -/
theorem resolver_strategy_order_witness :
    ["10.0.0.1", "192.168.123.5"].find? ipMatches = some "192.168.123.5" ∧
    resolveLocalIp ⟨Except.ok ["10.0.0.1", "192.168.123.5"], Except.error (),
      Except.error (), Except.error ()⟩ = (some "192.168.123.5", [1]) ∧
    resolveLocalIp ⟨Except.error (), Except.ok ["10.0.0.1", "192.168.123.6"],
      Except.error (), Except.error ()⟩ = (some "192.168.123.6", [1, 2]) ∧
    resolveLocalIp ⟨Except.ok ["10.0.0.1"], Except.error (),
      Except.ok "192.168.123.7", Except.error ()⟩ =
      (some "192.168.123.7", [1, 2, 3]) ∧
    resolveLocalIp ⟨Except.error (), Except.error (), Except.ok "10.0.0.2",
      Except.ok "192.168.123.8"⟩ = (some "192.168.123.8", [1, 2, 3, 4]) ∧
    resolveLocalIp ⟨Except.error (), Except.error (), Except.error (),
      Except.error ()⟩ = (none, [1, 2, 3, 4]) :=
  ⟨by decide,
   resolver_strategy_order.1 ⟨Except.ok ["10.0.0.1", "192.168.123.5"],
     Except.error (), Except.error (), Except.error ()⟩
     ["10.0.0.1", "192.168.123.5"] "192.168.123.5" rfl (by decide),
   resolver_strategy_order.2.1 ⟨Except.error (),
     Except.ok ["10.0.0.1", "192.168.123.6"], Except.error (), Except.error ()⟩
     ["10.0.0.1", "192.168.123.6"] "192.168.123.6" rfl rfl (by decide),
   resolver_strategy_order.2.2.1 ⟨Except.ok ["10.0.0.1"], Except.error (),
     Except.ok "192.168.123.7", Except.error ()⟩ "192.168.123.7"
     (by decide) rfl rfl (by decide),
   resolver_strategy_order.2.2.2.1 ⟨Except.error (), Except.error (),
     Except.ok "10.0.0.2", Except.ok "192.168.123.8"⟩ "192.168.123.8"
     rfl rfl (by decide) rfl (by decide),
   resolver_strategy_order.2.2.2.2.2.2.2.2 ⟨Except.error (), Except.error (),
     Except.error (), Except.error ()⟩ rfl rfl rfl rfl⟩

/-- C9: starting from the freshly constructed client's internal index 0,
`self.tts_index += self.tts_index` never advances it, so every TTS call
carries index 0; each call returns the transport's status code, and the
text and speaker id are passed through unchanged. -/
theorem tts_index_never_advances (status : ℕ → ℤ) (cmds : List (String × ℤ)) (n : ℕ) :
    (∀ r ∈ ttsRun status cmds 0 n, r.index = 0) ∧
    (ttsRun status cmds 0 n).map TtsRecord.ret =
      (List.range cmds.length).map (fun i => status (n + i)) ∧
    (ttsRun status cmds 0 n).map (fun r => (r.text, r.speakerId)) = cmds := by
  induction cmds generalizing n with
  | nil =>
    exact ⟨fun r hr => absurd hr (by simp [ttsRun]), by simp [ttsRun], by simp [ttsRun]⟩
  | cons c rest ih =>
    obtain ⟨t, sp⟩ := c
    obtain ⟨ih1, ih2, ih3⟩ := ih (n + 1)
    have hstep : ttsRun status ((t, sp) :: rest) 0 n =
        ⟨0, t, sp, status n⟩ :: ttsRun status rest 0 (n + 1) := by
      show (⟨ttsStep 0, t, sp, status n⟩ : TtsRecord) ::
          ttsRun status rest (ttsStep 0) (n + 1) = _
      simp [ttsStep]
    refine ⟨?_, ?_, ?_⟩
    · intro r hr
      rw [hstep] at hr
      rcases List.mem_cons.mp hr with h | h
      · rw [h]
      · exact ih1 r h
    · rw [hstep, List.map_cons, ih2]
      simp only [List.length_cons, List.range_succ_eq_map, List.map_cons, List.map_map]
      have htail : List.map (fun i => status (n + 1 + i)) (List.range rest.length) =
          List.map ((fun i => status (n + i)) ∘ Nat.succ) (List.range rest.length) :=
        List.map_congr_left (fun i _ => by
          show status (n + 1 + i) = status (n + (i + 1))
          congr 1
          omega)
      rw [htail]
      simp
    · rw [hstep, List.map_cons, ih3]

/-- C9 witness: two concrete calls both carry index 0 and return the
transport's codes. -/
theorem tts_index_never_advances_witness :
    TtsRecord.index ⟨0, "a", 1, 7⟩ = 0 ∧
    (ttsRun (fun _ => (7 : ℤ)) [("a", 1), ("b", 2)] 0 0).map TtsRecord.ret = [7, 7] ∧
    (ttsRun (fun _ => (7 : ℤ)) [("a", 1), ("b", 2)] 0 0).map
      (fun r => (r.text, r.speakerId)) = [("a", 1), ("b", 2)] :=
  ⟨(tts_index_never_advances (fun _ => (7 : ℤ)) [("a", 1), ("b", 2)] 0).1
      ⟨0, "a", 1, 7⟩ (by decide),
   ((tts_index_never_advances (fun _ => (7 : ℤ)) [("a", 1), ("b", 2)] 0).2.1).trans
      (by decide),
   (tts_index_never_advances (fun _ => (7 : ℤ)) [("a", 1), ("b", 2)] 0).2.2⟩

/-- C10: over an uninterrupted event trace the raw-mic loop invokes the
user handler exactly once per non-empty received datagram (truncated to
4096 bytes by `recvfrom`), in order, and never for a zero-length
datagram. -/
theorem mic_delivery_per_datagram (handler : List ℕ → Except String Unit)
    (evs : List MicEvent) (hun : uninterrupted evs = true) :
    (micLoop handler evs).1 =
      ((datagramsOf evs).map (fun d => d.take 4096)).filter
        (fun d => !d.isEmpty) ∧
    [] ∉ (micLoop handler evs).1 := by
  have hmain : ∀ (l : List MicEvent), uninterrupted l = true →
      (micLoop handler l).1 =
        ((datagramsOf l).map (fun d => d.take 4096)).filter (fun d => !d.isEmpty) := by
    intro l
    induction l with
    | nil => intro _; rfl
    | cons ev rest ih =>
      intro hl
      cases ev with
      | datagram d =>
        have hrest : uninterrupted rest = true := by
          simpa [uninterrupted] using hl
        by_cases hd : d.take 4096 = []
        · simp [micLoop, hd, datagramsOf, ih hrest]
        · have hne : (d.take 4096).isEmpty = false := by
            cases h : d.take 4096 with
            | nil => exact absurd h hd
            | cons x xs => rfl
          cases hh : handler (d.take 4096) <;>
            simp [micLoop, hd, hh, datagramsOf, ih hrest, hne]
      | timeout =>
        have hrest : uninterrupted rest = true := by
          simpa [uninterrupted] using hl
        simpa [micLoop, datagramsOf] using ih hrest
      | sockError => simp [uninterrupted] at hl
      | stopSet => simp [uninterrupted] at hl
  refine ⟨hmain evs hun, ?_⟩
  rw [hmain evs hun]
  intro hmem
  have := (List.mem_filter.mp hmem).2
  simp at this

/-- C10 witness: a trace with an empty datagram delivers only the two
non-empty ones. -/
theorem mic_delivery_per_datagram_witness :
    uninterrupted [MicEvent.datagram [1, 2], MicEvent.datagram [],
      MicEvent.timeout, MicEvent.datagram [3]] = true ∧
    (micLoop (fun _ => Except.ok ()) [MicEvent.datagram [1, 2],
      MicEvent.datagram [], MicEvent.timeout, MicEvent.datagram [3]]).1 =
      [[1, 2], [3]] := by
  refine ⟨by decide, ?_⟩
  have h := (mic_delivery_per_datagram (fun _ => Except.ok ())
    [MicEvent.datagram [1, 2], MicEvent.datagram [], MicEvent.timeout,
      MicEvent.datagram [3]] (by decide)).1
  rw [h]
  decide

end G1Audio
